import Mathlib

/-!
Verification of the `cortex` agent learning core.

This file shallowly embeds the learning components of the repository
(`packages/agent/src/learning/reflexion.ts`, `gradients.ts`, `contrastive.ts`,
the skill library, and the ARIAv2 orchestrator's milestone check) as
executable Lean definitions and proves or refutes the specified claims
about them.

Conventions of the embedding:
* JavaScript numbers are modelled as rationals (`ℚ`); none of the claims
  under study depends on floating-point rounding.
* JavaScript `Map`s and plain objects used as dictionaries are modelled as
  association lists (`List (String × β)`) in insertion order, with
  `mapSet` mirroring `map.set`/`obj[k] = v` (replace in place, else append).
* `Math.random()` draws are passed in explicitly (a list of rationals or
  booleans), so the stochastic code becomes a deterministic function of
  the draw sequence.
* The result of scraping the first `{...}` JSON substring out of an LLM
  response and `JSON.parse`-ing it is passed in as an `Option` of a parsed
  shape; `none` covers both "no JSON found" and "JSON.parse threw".
* `Date.now()` is passed in as an explicit `now : ℕ`.
-/

set_option autoImplicit false

namespace Cortex

/-! ### Association-list model of JS `Map` / dictionary objects -/

/-- `map.set k v` / `obj[k] = v`: replace the value at the first occurrence
of `k`, else append `(k, v)` at the end (JS insertion-order semantics). -/
def mapSet {β : Type} : List (String × β) → String → β → List (String × β)
  | [], k, v => [(k, v)]
  | (k', v') :: rest, k, v =>
    if k' = k then (k', v) :: rest else (k', v') :: mapSet rest k v

/-- `map.get k` / `obj[k]`, as an `Option`. -/
def mapGet {β : Type} (m : List (String × β)) (k : String) : Option β :=
  m.lookup k

/-! ### Experience replay + tabular Q-values (`reflexion.ts`, `ExperienceReplay`) -/

/-- `Experience` from `reflexion.ts`: one stored transition. -/
structure Experience where
  state : String
  action : String
  reward : ℚ
  nextState : String
  goalId : String
  strategyId : String
  timestamp : ℕ
  deriving Repr, DecidableEq

/-- The nested `QTable` object: state → (action → q-value). -/
abbrev QTable := List (String × List (String × ℚ))

/-- `getQ`: `this.qTable[state]?.[action] ?? 0`. -/
def getQ (q : QTable) (s a : String) : ℚ :=
  match mapGet q s with
  | none => 0
  | some m =>
    match mapGet m a with
    | none => 0
    | some v => v

/-- `setQ`: lazily create the inner object, then assign the action's value. -/
def setQ (q : QTable) (s a : String) (v : ℚ) : QTable :=
  match mapGet q s with
  | none => mapSet q s [(a, v)]
  | some m => mapSet q s (mapSet m a v)

/-- `Math.max(...values)` over a nonempty list, via `foldl`. -/
def listMax : List ℚ → ℚ
  | [] => 0
  | v :: vs => vs.foldl max v

/-- `getMaxQ`: 0 if the state has no entry (or an empty inner object),
else the maximum recorded action value. -/
def getMaxQ (q : QTable) (s : String) : ℚ :=
  match mapGet q s with
  | none => 0
  | some m =>
    match m.map Prod.snd with
    | [] => 0
    | v :: vs => listMax (v :: vs)

/-- State of an `ExperienceReplay` instance: ring buffer, Q-table and
hyperparameters. -/
structure ReplayState where
  buffer : List Experience
  maxSize : ℕ
  qTable : QTable
  alpha : ℚ
  gamma : ℚ
  epsilon : ℚ
  deriving Repr

/-- A freshly constructed `ExperienceReplay` for a given configuration. -/
def ReplayState.fresh (maxSize : ℕ) (alpha gamma epsilon : ℚ) : ReplayState :=
  { buffer := [], maxSize := maxSize, qTable := [],
    alpha := alpha, gamma := gamma, epsilon := epsilon }

/-- `store(experience)`: push, evict oldest when over capacity, and lazily
initialize the `(state, action)` Q-value to 0. -/
def ReplayState.storeExp (st : ReplayState) (e : Experience) : ReplayState :=
  let buf := st.buffer ++ [e]
  let buf := if buf.length > st.maxSize then buf.tail else buf
  let q := match mapGet st.qTable e.state with
    | none => mapSet st.qTable e.state []
    | some _ => st.qTable
  let q := match mapGet q e.state with
    | some m =>
      match mapGet m e.action with
      | none => mapSet q e.state (mapSet m e.action 0)
      | some _ => q
    | none => q
  { st with buffer := buf, qTable := q }

/-- Loop body of `update`: process one sampled experience, carrying the
mutable Q-table, the running `totalTdError`, and the `updatedStates` set
(a list in insertion order). -/
def updateStep (alpha gamma : ℚ) (acc : QTable × ℚ × List String) (e : Experience) :
    QTable × ℚ × List String :=
  let q := acc.1
  let maxNextQ := getMaxQ q e.nextState
  let target := e.reward + gamma * maxNextQ
  let currentQ := getQ q e.state e.action
  let tdError := target - currentQ
  (setQ q e.state e.action (currentQ + alpha * tdError),
   acc.2.1 + |tdError|,
   if acc.2.2.contains e.state then acc.2.2 else acc.2.2 ++ [e.state])

/-- `update(batchSize)`, given the batch that `samplePrioritized` drew:
returns the new Q-table, `avgTdError` and `updatedStates` count.
The random prioritized draw itself is abstracted as the `batch` input. -/
def updateQ (alpha gamma : ℚ) (q : QTable) (batch : List Experience) :
    QTable × ℚ × ℕ :=
  let r := batch.foldl (updateStep alpha gamma) (q, 0, [])
  (r.1, if batch.length > 0 then r.2.1 / batch.length else 0, r.2.2.length)

/-- `update` on a full replay state (uses the instance's `alpha`/`gamma`). -/
def ReplayState.update (st : ReplayState) (batch : List Experience) :
    ReplayState × ℚ × ℕ :=
  let r := updateQ st.alpha st.gamma st.qTable batch
  ({ st with qTable := r.1 }, r.2.1, r.2.2)

/-! Specification-side description of the update rule (for claim C1):
per-transition revision `value += α·(target − value)` against the table as
already revised by the earlier transitions of the batch. -/

/-- The TD target `reward + γ·max_a Q(nextState, a)` (0 when `nextState`
has no recorded actions). -/
def tdTarget (gamma : ℚ) (q : QTable) (e : Experience) : ℚ :=
  e.reward + gamma * getMaxQ q e.nextState

/-- The current TD error `target − Q(state, action)`. -/
def tdErr (gamma : ℚ) (q : QTable) (e : Experience) : ℚ :=
  tdTarget gamma q e - getQ q e.state e.action

/-- Spec-side single-transition revision: `value += α·(target − value)`. -/
def applyTD (alpha gamma : ℚ) (q : QTable) (e : Experience) : QTable :=
  setQ q e.state e.action (getQ q e.state e.action + alpha * tdErr gamma q e)

/-- Spec-side sequence of absolute TD errors, each read against the table
as already modified by the earlier transitions of the batch. -/
def onlineAbsErrors (alpha gamma : ℚ) : QTable → List Experience → List ℚ
  | _, [] => []
  | q, e :: es => |tdErr gamma q e| :: onlineAbsErrors alpha gamma (applyTD alpha gamma q e) es

/-- A Q-table holding exactly one state with one recorded action (the
shape produced by `store` on a fresh instance, and preserved by updates of
that same key). -/
def singleQ (s a : String) (v : ℚ) : QTable :=
  [(s, [(a, v)])]

/-- A concrete isolated transition `("s", "a", reward r, "t")`. -/
def eIso (r : ℚ) : Experience :=
  { state := "s", action := "a", reward := r, nextState := "t",
    goalId := "g", strategyId := "st", timestamp := 0 }

def ReplayState.getBufferSize (st : ReplayState) : ℕ :=
  st.buffer.length

def ReplayState.getQTableSize (st : ReplayState) : ℕ :=
  st.qTable.length

def ReplayState.getEpsilon (st : ReplayState) : ℚ :=
  st.epsilon

def ReplayState.getQTable (st : ReplayState) : QTable :=
  st.qTable

/-- `export()`: buffer, Q-table and epsilon. -/
def ReplayState.exportData (st : ReplayState) : List Experience × QTable × ℚ :=
  (st.buffer, st.qTable, st.epsilon)

/-- `import(data)`: replace buffer, Q-table and epsilon. -/
def ReplayState.importData (st : ReplayState) (data : List Experience × QTable × ℚ) :
    ReplayState :=
  { st with buffer := data.1, qTable := data.2.1, epsilon := data.2.2 }

end Cortex

namespace Cortex

/-! ### Shared string helpers -/

/-- `sub.isPrefixOf` applied along all suffixes: JS `String.includes`. -/
def charListContains (s sub : List Char) : Bool :=
  s.tails.any (fun t => sub.isPrefixOf t)

/-- JS `s.includes(sub)` (substring containment). -/
def strContains (s sub : String) : Bool :=
  charListContains s.toList sub.toList

/-- A JS word character (`\w` = `[A-Za-z0-9_]`). -/
def wordChar (c : Char) : Bool :=
  c.isAlphanum || c = '_'

/-- Character-level splitting (structurally recursive, so that concrete
inputs evaluate): split at every character satisfying `p`, keeping empty
fragments, like `String.split`. -/
def splitCharsAux (p : Char → Bool) : List Char → List Char → List String
  | [], cur => [String.mk cur.reverse]
  | c :: cs, cur =>
    if p c then String.mk cur.reverse :: splitCharsAux p cs []
    else splitCharsAux p cs (c :: cur)

def splitChars (s : String) (p : Char → Bool) : List String :=
  splitCharsAux p s.toList []

/-- JS `s.toLowerCase()` (ASCII, character by character). -/
def lowerStr (s : String) : String :=
  String.mk (s.toList.map Char.toLower)

/-- `String.intercalate`, structurally. -/
def joinSep (sep : String) : List String → String
  | [] => ""
  | [x] => x
  | x :: y :: xs => x ++ sep ++ joinSep sep (y :: xs)

/-- JS `s.split(/\W+/)` up to empty tokens (every consumer filters tokens
by a minimum length, so the empty tokens arising from consecutive
separators never matter). -/
def splitWords (s : String) : List String :=
  splitChars s (fun c => !wordChar c)

/-- First-occurrence deduplication, the membership order of a JS `Set`
built by iterated insertion. -/
def dedupFirst (l : List String) : List String :=
  l.foldl (fun acc w => if acc.contains w then acc else acc ++ [w]) []

/-- Replace the first exact match of `orig` in a list with `repl`
(JS `indexOf` + index assignment; no match means no-op). -/
def replaceFirstL : List String → String → String → List String
  | [], _, _ => []
  | x :: xs, orig, repl =>
    if x = orig then repl :: xs else x :: replaceFirstL xs orig repl

/-- JS `String.replace(pattern, repl)` with a string pattern: replace the
first occurrence only. -/
def replaceFirstStr (s pat repl : String) : String :=
  match s.splitOn pat with
  | [] => s
  | [_] => s
  | x :: rest => x ++ repl ++ String.intercalate pat rest

end Cortex

namespace Cortex

/-! ### Reflexion engine (`reflexion.ts`, `ReflexionEngine`) -/

/-- One thought/action/observation step of a `Trajectory`. -/
structure TrajAction where
  thought : String
  action : String
  observation : String
  deriving Repr, DecidableEq

inductive Outcome where
  | success
  | failure
  | partial_
  deriving Repr, DecidableEq

/-- `Trajectory` from `reflexion.ts`. -/
structure Trajectory where
  goal : String
  actions : List TrajAction
  outcome : Outcome
  finalResult : String
  deriving Repr, DecidableEq

/-- `Reflection` from `reflexion.ts`. -/
structure Reflection where
  trajectory : Trajectory
  diagnosis : String
  lessons : List String
  corrections : List String
  confidence : ℚ
  timestamp : ℕ
  deriving Repr, DecidableEq

/-- The JSON object scraped out of the model response by
`parseReflection`, field by field.  A `none` field models an absent (or,
for `diagnosis`, falsy) value, a non-array value for the list fields, or a
non-number `confidence`. -/
structure ParsedReflection where
  diagnosis : Option String
  lessons : Option (List String)
  corrections : Option (List String)
  confidence : Option ℚ
  deriving Repr, DecidableEq

/-- Configuration of a `ReflexionEngine`. -/
structure ReflexionCfg where
  maxLessons : ℕ
  minConfidence : ℚ
  deriving Repr, DecidableEq

/-- The defaults `maxLessons = 50`, `minConfidenceToStore = 0.6`. -/
def defaultReflexionCfg : ReflexionCfg :=
  { maxLessons := 50, minConfidence := 3/5 }

/-- Mutable state of a `ReflexionEngine`: the per-goal-type lesson map and
the reflection log. -/
structure ReflexionState where
  lessons : List (String × List String)
  reflections : List Reflection
  deriving Repr, DecidableEq

def ReflexionState.fresh : ReflexionState :=
  { lessons := [], reflections := [] }

/-- `parseReflection`: build a `Reflection` from the scraped JSON, or the
fixed fallback (`confidence` 0.3, empty lessons) when no JSON was found or
`JSON.parse` threw. -/
def parseReflection (trajectory : Trajectory) (parsed : Option ParsedReflection)
    (now : ℕ) : Reflection :=
  match parsed with
  | some p =>
    { trajectory := trajectory
      diagnosis := p.diagnosis.getD "Unknown"
      lessons := p.lessons.getD []
      corrections := p.corrections.getD []
      confidence := match p.confidence with
        | some c => max 0 (min 1 c)
        | none => 1/2
      timestamp := now }
  | none =>
    { trajectory := trajectory
      diagnosis := "Failed to parse reflection"
      lessons := []
      corrections := []
      confidence := 3/10
      timestamp := now }

/-- The goal signature used as lesson key: first three space-separated
tokens of the lower-cased goal. -/
def goalSignature (goal : String) : String :=
  joinSep " " ((splitChars (lowerStr goal) (fun c => c = ' ')).take 3)

/-- Append each lesson that is not already present (set semantics on a
list, preserving order). -/
def addNewLessons (cur : List String) (ls : List String) : List String :=
  ls.foldl (fun acc l => if acc.contains l then acc else acc ++ [l]) cur

/-- The `while (goalLessons.length > maxLessons) goalLessons.shift()`
trimming loop: drop from the front until within the cap. -/
def trimLessons (mx : ℕ) : List String → List String
  | [] => []
  | x :: xs => if xs.length + 1 > mx then trimLessons mx xs else x :: xs

/-- `storeReflection`: log the reflection, then merge its lessons into the
goal-signature bucket with dedup and FIFO trimming. -/
def storeReflection (cfg : ReflexionCfg) (st : ReflexionState) (r : Reflection) :
    ReflexionState :=
  let goalType := goalSignature r.trajectory.goal
  let goalLessons := (mapGet st.lessons goalType).getD []
  let merged := trimLessons cfg.maxLessons (addNewLessons goalLessons r.lessons)
  { lessons := mapSet st.lessons goalType merged
    reflections := st.reflections ++ [r] }

/-- `reflect(trajectory)`: parse the model response (given here as the
scraped-JSON input) and store the reflection when confident enough. -/
def reflect (cfg : ReflexionCfg) (st : ReflexionState) (trajectory : Trajectory)
    (parsed : Option ParsedReflection) (now : ℕ) : Reflection × ReflexionState :=
  let r := parseReflection trajectory parsed now
  if r.confidence ≥ cfg.minConfidence then (r, storeReflection cfg st r) else (r, st)

def ReflexionState.getTotalReflections (st : ReflexionState) : ℕ :=
  st.reflections.length

def ReflexionState.getTotalLessons (st : ReflexionState) : ℕ :=
  (st.lessons.map (fun p => p.2.length)).sum

/-- `reflections.slice(-n)` (for `n = 0` JS `slice(-0)` is the whole
array). -/
def ReflexionState.getRecentReflections (st : ReflexionState) (n : ℕ) : List Reflection :=
  if n = 0 then st.reflections else st.reflections.drop (st.reflections.length - n)

/-- `export()`: the lesson map as a plain object plus the reflection log. -/
def ReflexionState.exportData (st : ReflexionState) :
    List (String × List String) × List Reflection :=
  (st.lessons, st.reflections)

/-- `new Map(Object.entries(obj))`: sequential `set` of each entry. -/
def mapOfEntries {β : Type} (entries : List (String × β)) : List (String × β) :=
  entries.foldl (fun m p => mapSet m p.1 p.2) []

/-- `import(data)`: rebuild the lesson map and replace the reflection log. -/
def ReflexionState.importData (_st : ReflexionState)
    (data : List (String × List String) × List Reflection) : ReflexionState :=
  { lessons := mapOfEntries data.1, reflections := data.2 }

end Cortex

namespace Cortex

/-! ### Textual gradient engine (`gradients.ts`, `TextualGradientEngine`) -/

/-- A recent outcome handed to `computeGradient`. -/
structure OutcomeRec where
  success : Bool
  context : String
  deriving Repr, DecidableEq

/-- One `modifySteps` entry. -/
structure StepMod where
  original : String
  modified : String
  deriving Repr, DecidableEq

/-- The `modifications` block of a `TextualGradient`. -/
structure GradientMods where
  addHeuristics : List String
  removeHeuristics : List String
  modifySteps : List StepMod
  promptAdjustments : List String
  deriving Repr, DecidableEq

def GradientMods.empty : GradientMods :=
  { addHeuristics := [], removeHeuristics := [], modifySteps := [], promptAdjustments := [] }

/-- `TextualGradient` from `gradients.ts`. -/
structure TextualGradient where
  strategyId : String
  successRate : ℚ
  recentOutcomes : List OutcomeRec
  modifications : GradientMods
  reasoning : String
  magnitude : ℚ
  timestamp : ℕ
  deriving Repr, DecidableEq

/-- The JSON object scraped out of the model response by `parseGradient`;
`none` fields model absent values (or a non-number `magnitude`). -/
structure ParsedGradient where
  reasoning : Option String
  magnitude : Option ℚ
  addHeuristics : Option (List String)
  removeHeuristics : Option (List String)
  modifySteps : Option (List StepMod)
  promptAdjustments : Option (List String)
  deriving Repr, DecidableEq

/-- The observed success fraction of the recent outcomes. -/
def observedSuccessRate (outcomes : List OutcomeRec) : ℚ :=
  ((outcomes.filter (fun o => o.success)).length : ℚ) / outcomes.length

/-- `parseGradient`: build a `TextualGradient` from the scraped JSON, or
the fixed fallback (empty modifications, `magnitude` 0.1) when no JSON was
found or `JSON.parse` threw. -/
def parseGradient (strategyId : String) (parsed : Option ParsedGradient)
    (outcomes : List OutcomeRec) (now : ℕ) : TextualGradient :=
  match parsed with
  | some p =>
    { strategyId := strategyId
      successRate := observedSuccessRate outcomes
      recentOutcomes := outcomes
      modifications :=
        { addHeuristics := p.addHeuristics.getD []
          removeHeuristics := p.removeHeuristics.getD []
          modifySteps := p.modifySteps.getD []
          promptAdjustments := p.promptAdjustments.getD [] }
      reasoning := p.reasoning.getD "No reasoning provided"
      magnitude := match p.magnitude with
        | some m => max 0 (min 1 m)
        | none => 1 - observedSuccessRate outcomes
      timestamp := now }
  | none =>
    { strategyId := strategyId
      successRate := observedSuccessRate outcomes
      recentOutcomes := outcomes
      modifications := GradientMods.empty
      reasoning := "Failed to parse gradient"
      magnitude := 1/10
      timestamp := now }

/-- `computeGradient`: parse the model response (given here as its
scraped-JSON input) and append the gradient to the history. -/
def computeGradient (history : List TextualGradient) (strategyId : String)
    (outcomes : List OutcomeRec) (parsed : Option ParsedGradient) (now : ℕ) :
    TextualGradient × List TextualGradient :=
  let g := parseGradient strategyId parsed outcomes now
  (g, history ++ [g])

/-- State of a `TextualGradientEngine` instance. -/
structure GradientEngineState where
  learningRate : ℚ
  gradientHistory : List TextualGradient
  deriving Repr, DecidableEq

def GradientEngineState.fresh (learningRate : ℚ) : GradientEngineState :=
  { learningRate := learningRate, gradientHistory := [] }

def GradientEngineState.getGradientHistory (st : GradientEngineState) :
    List TextualGradient :=
  st.gradientHistory

def GradientEngineState.getAverageMagnitude (st : GradientEngineState) : ℚ :=
  if st.gradientHistory.length = 0 then 0
  else (st.gradientHistory.map (fun g => g.magnitude)).sum / st.gradientHistory.length

/-- `export()`: the gradient history. -/
def GradientEngineState.exportData (st : GradientEngineState) : List TextualGradient :=
  st.gradientHistory

/-- `import(gradients)`: replace the history. -/
def GradientEngineState.importData (st : GradientEngineState)
    (gradients : List TextualGradient) : GradientEngineState :=
  { st with gradientHistory := gradients }

end Cortex

namespace Cortex

/-! ### `applyGradient` with explicit array store (for the aliasing claim)

`applyGradient` starts from `{ ...strategy }`, a shallow copy: the copy's
`steps` and `heuristics` fields still reference the input's arrays.  To
state the aliasing consequences we model JS arrays-of-strings as cells of
an explicit store and a strategy object as a record holding cell indices.
`Math.random()` draws are passed in as a list of rationals (consumed in
program order; an exhausted list yields the out-of-range draw 1). -/

/-- The array store: cell `i` holds a JS array of strings. -/
abbrev Store := List (List String)

def readCell (store : Store) (i : ℕ) : List String :=
  (store.get? i).getD []

def writeCell (store : Store) (i : ℕ) (v : List String) : Store :=
  store.set i v

/-- A `Strategy` object whose `steps`/`heuristics` fields are references
into the store. -/
structure StrategyObj where
  id : String
  name : String
  description : String
  systemPrompt : String
  stepsRef : ℕ
  heuristicsRef : ℕ
  successRate : ℚ
  deriving Repr, DecidableEq

/-- Pop the next `Math.random()` value (1, never below an effective rate
that is at most 1, when the provided draws are exhausted). -/
def nextDraw : List ℚ → ℚ × List ℚ
  | [] => (1, [])
  | d :: ds => (d, ds)

/-- `integratePromptAdjustment`. -/
def integratePromptAdjustment (prompt adjustment : String) : String :=
  if strContains prompt "HEURISTICS:" then
    replaceFirstStr prompt "HEURISTICS:" ("HEURISTICS:\n- " ++ adjustment)
  else
    prompt ++ "\n\nADDITIONAL GUIDANCE:\n- " ++ adjustment

/-- Phase 1 of `applyGradient`: heuristic additions, pushed through the
(shared) `heuristics` reference. -/
def applyAddHeuristics (eff : ℚ) (href : ℕ) :
    List String → Store → List ℚ → Store × List ℚ
  | [], store, draws => (store, draws)
  | h :: hs, store, draws =>
    let (d, ds) := nextDraw draws
    let cell := readCell store href
    if d < eff ∧ ¬ cell.contains h then
      applyAddHeuristics eff href hs (writeCell store href (cell ++ [h])) ds
    else
      applyAddHeuristics eff href hs store ds

/-- Phase 2 of `applyGradient`: heuristic removals.  `filter` allocates a
fresh array which is assigned to the copy's `heuristics` field, detaching
it from the input's array. -/
def applyRemoveHeuristics (eff : ℚ) :
    List String → ℕ → Store → List ℚ → ℕ × Store × List ℚ
  | [], href, store, draws => (href, store, draws)
  | h :: hs, href, store, draws =>
    let (d, ds) := nextDraw draws
    if d < eff then
      let fresh := (readCell store href).filter (fun x => x ≠ h)
      applyRemoveHeuristics eff hs store.length (store ++ [fresh]) ds
    else
      applyRemoveHeuristics eff hs href store ds

/-- Phase 3 of `applyGradient`: step modifications, written through the
(shared) `steps` reference. -/
def applyModifySteps (eff : ℚ) (sref : ℕ) :
    List StepMod → Store → List ℚ → Store × List ℚ
  | [], store, draws => (store, draws)
  | m :: ms, store, draws =>
    let (d, ds) := nextDraw draws
    if d < eff then
      let cell := readCell store sref
      applyModifySteps eff sref ms
        (writeCell store sref (replaceFirstL cell m.original m.modified)) ds
    else
      applyModifySteps eff sref ms store ds

/-- Pure description of the steps phase acting on the contents of the
`steps` cell: each modification is applied (first-match replacement) when
its draw fires. -/
def stepModsSpec (eff : ℚ) : List StepMod → List String → List ℚ → List String
  | [], cell, _ => cell
  | m :: ms, cell, draws =>
    let (d, ds) := nextDraw draws
    if d < eff then stepModsSpec eff ms (replaceFirstL cell m.original m.modified) ds
    else stepModsSpec eff ms cell ds

/-- `applyGradient(strategy, gradient)` over the explicit store. -/
def applyGradient (learningRate : ℚ) (store : Store) (strategy : StrategyObj)
    (g : TextualGradient) (draws : List ℚ) : StrategyObj × Store × List ℚ :=
  let updated := strategy
  let eff := learningRate * g.magnitude
  let (store, draws) :=
    applyAddHeuristics eff updated.heuristicsRef g.modifications.addHeuristics store draws
  let (href, store, draws) :=
    applyRemoveHeuristics eff g.modifications.removeHeuristics updated.heuristicsRef store draws
  let updated := { updated with heuristicsRef := href }
  let (store, draws) :=
    applyModifySteps eff updated.stepsRef g.modifications.modifySteps store draws
  let (updated, draws) :=
    if g.modifications.promptAdjustments.length > 0 then
      let (d, ds) := nextDraw draws
      if d < eff then
        ({ updated with systemPrompt :=
            (integratePromptAdjustment updated.systemPrompt
              (g.modifications.promptAdjustments.headD "")) }, ds)
      else (updated, ds)
    else (updated, draws)
  (updated, store, draws)

end Cortex

namespace Cortex

/-! ### Skill library (`SkillLibrary`) -/

/-- One templated step of a skill. -/
structure SkillStep where
  action : String
  tool : String
  paramTemplate : List (String × String)
  expectedOutcome : String
  deriving Repr, DecidableEq

/-- `Skill` (preconditions and postconditions flattened into the record). -/
structure Skill where
  id : String
  name : String
  description : String
  goalPatterns : List String
  requiredTools : List String
  contextIndicators : List String
  steps : List SkillStep
  successIndicators : List String
  expectedOutputFormat : String
  sourceTrajectory : String
  successRate : ℚ
  usageCount : ℕ
  createdAt : ℕ
  lastUsed : ℕ
  deriving Repr, DecidableEq

/-- State of a `SkillLibrary`: the id-keyed skill map. -/
structure SkillLibState where
  skills : List (String × Skill)
  minConfidence : ℚ
  deriving Repr, DecidableEq

/-- `new RegExp(pattern, 'i').test(goal)` is external to the embedding: a
regex oracle returns `none` when the pattern is an invalid regex (the
`catch` branch) and `some b` for a valid pattern's match outcome. -/
abbrev RegexTest := String → String → Option Bool

/-- The goal-pattern part of `scoreSkillMatch`: +0.4 on the first regex
match, +0.3 on the first substring match of an invalid pattern, then stop
scanning. -/
def patternScore (rtest : RegexTest) (goal goalLower : String) :
    List String → ℚ
  | [] => 0
  | p :: ps =>
    match rtest p goal with
    | some true => 2/5
    | some false => patternScore rtest goal goalLower ps
    | none =>
      if strContains goalLower (lowerStr p) then 3/10
      else patternScore rtest goal goalLower ps

/-- The context-indicator part: +0.1 for each indicator contained in the
lower-cased goal. -/
def indicatorScore (goalLower : String) (indicators : List String) : ℚ :=
  ((indicators.filter (fun i => strContains goalLower (lowerStr i))).length : ℚ) * (1/10)

/-- `scoreSkillMatch`: additive pattern/indicator terms, then +0.3 when
every required tool is available, else the running score halved; clamped
to at most 1. -/
def scoreSkillMatch (rtest : RegexTest) (skill : Skill) (goal : String)
    (availableTools : List String) : ℚ :=
  let goalLower := lowerStr goal
  let score := patternScore rtest goal goalLower skill.goalPatterns
  let score := score + indicatorScore goalLower skill.contextIndicators
  let score :=
    if skill.requiredTools.all (fun t => availableTools.contains t) then score + 3/10
    else score * (1/2)
  min 1 score

def SkillLibState.addSkill (st : SkillLibState) (skill : Skill) : SkillLibState :=
  { st with skills := mapSet st.skills skill.id skill }

def SkillLibState.getAllSkills (st : SkillLibState) : List Skill :=
  st.skills.map Prod.snd

def SkillLibState.getTotalSkills (st : SkillLibState) : ℕ :=
  st.skills.length

/-- `export()`: the list of stored skills. -/
def SkillLibState.exportData (st : SkillLibState) : List Skill :=
  st.getAllSkills

/-- `import(skills)`: re-insert every skill keyed by its id. -/
def SkillLibState.importData (st : SkillLibState) (skills : List Skill) : SkillLibState :=
  { st with skills := skills.foldl (fun m sk => mapSet m sk.id sk) st.skills }

def SkillLibState.fresh (minConfidence : ℚ) : SkillLibState :=
  { skills := [], minConfidence := minConfidence }

end Cortex

namespace Cortex

/-! ### Contrastive learner (`contrastive.ts`, `ContrastiveLearner`) -/

/-- One executed action of a `TrajectoryRecord` (`params`/`result` kept
opaque as strings). -/
structure TrajStep where
  tool : String
  params : String
  result : String
  duration : ℕ
  deriving Repr, DecidableEq

/-- `TrajectoryRecord` from `contrastive.ts`. -/
structure TrajRec where
  id : String
  goal : String
  actions : List TrajStep
  success : Bool
  finalScore : ℚ
  context : List (String × String)
  timestamp : ℕ
  deriving Repr, DecidableEq

/-- `ContrastiveInsight` (the `differences` block flattened). -/
structure Insight where
  id : String
  winningTrajectory : String
  losingTrajectory : String
  goalSimilarity : ℚ
  toolUsage : List String
  parameterChoices : List String
  sequencing : List String
  contextFactors : List String
  insight : String
  applicability : List String
  confidence : ℚ
  timestamp : ℕ
  deriving Repr, DecidableEq

/-- State of a `ContrastiveLearner`. -/
structure ContrastiveState where
  trajectories : List (String × TrajRec)
  insights : List Insight
  minSimilarity : ℚ
  deriving Repr, DecidableEq

/-- The token set of a goal: lower-cased `\W+`-split tokens longer than
2 characters, deduplicated. -/
def tokenSet (goal : String) : List String :=
  dedupFirst ((splitWords (lowerStr goal)).filter (fun w => w.length > 2))

/-- `computeGoalSimilarity`: token-set overlap over token-set union. -/
def computeGoalSimilarity (goal1 goal2 : String) : ℚ :=
  let words1 := tokenSet goal1
  let words2 := tokenSet goal2
  let overlap := (words1.filter (fun w => words2.contains w)).length
  let union := (dedupFirst (words1 ++ words2)).length
  if union > 0 then (overlap : ℚ) / union else 0

/-- Inner loop of `findContrastingPairs` over the losers for one winner;
the boolean flags the early `return` on reaching `maxPairs`. -/
def innerScan (minSim : ℚ) (maxPairs : ℕ) (w : TrajRec) :
    List TrajRec → List (TrajRec × TrajRec) → List (TrajRec × TrajRec) × Bool
  | [], acc => (acc, false)
  | l :: ls, acc =>
    if computeGoalSimilarity w.goal l.goal ≥ minSim then
      let acc := acc ++ [(w, l)]
      if acc.length ≥ maxPairs then (acc, true)
      else innerScan minSim maxPairs w ls acc
    else innerScan minSim maxPairs w ls acc

/-- Outer loop of `findContrastingPairs` over the winners. -/
def scanPairs (minSim : ℚ) (maxPairs : ℕ) (losers : List TrajRec) :
    List TrajRec → List (TrajRec × TrajRec) → List (TrajRec × TrajRec)
  | [], acc => acc
  | w :: ws, acc =>
    match innerScan minSim maxPairs w losers acc with
    | (acc, true) => acc
    | (acc, false) => scanPairs minSim maxPairs losers ws acc

/-- `findContrastingPairs(maxPairs)` on the stored trajectory list. -/
def findContrastingPairs (minSim : ℚ) (maxPairs : ℕ) (trajectoryList : List TrajRec) :
    List (TrajRec × TrajRec) :=
  let winners := trajectoryList.filter (fun t => t.success)
  let losers := trajectoryList.filter (fun t => !t.success)
  scanPairs minSim maxPairs losers winners []

/-- The nested-scan enumeration the spec describes: all
(winner, loser) pairs in scan order whose similarity passes the minimum. -/
def qualifyingPairs (minSim : ℚ) (trajectoryList : List TrajRec) :
    List (TrajRec × TrajRec) :=
  let winners := trajectoryList.filter (fun t => t.success)
  let losers := trajectoryList.filter (fun t => !t.success)
  winners.flatMap (fun w =>
    (losers.filter (fun l => computeGoalSimilarity w.goal l.goal ≥ minSim)).map
      (fun l => (w, l)))

def ContrastiveState.record (st : ContrastiveState) (t : TrajRec) : ContrastiveState :=
  { st with trajectories := mapSet st.trajectories t.id t }

def ContrastiveState.getTotalTrajectories (st : ContrastiveState) : ℕ :=
  st.trajectories.length

def ContrastiveState.getTotalInsights (st : ContrastiveState) : ℕ :=
  st.insights.length

def ContrastiveState.getWinRate (st : ContrastiveState) : ℚ :=
  let all := st.trajectories.map Prod.snd
  if all.length = 0 then 0
  else ((all.filter (fun t => t.success)).length : ℚ) / all.length

/-- `export()`: trajectory values plus insights. -/
def ContrastiveState.exportData (st : ContrastiveState) : List TrajRec × List Insight :=
  (st.trajectories.map Prod.snd, st.insights)

/-- `import(data)`: re-insert every trajectory keyed by its id, replace
the insights. -/
def ContrastiveState.importData (st : ContrastiveState)
    (data : List TrajRec × List Insight) : ContrastiveState :=
  { st with
      trajectories := data.1.foldl (fun m t => mapSet m t.id t) st.trajectories
      insights := data.2 }

def ContrastiveState.fresh (minSimilarity : ℚ) : ContrastiveState :=
  { trajectories := [], insights := [], minSimilarity := minSimilarity }

end Cortex

namespace Cortex

/-! ### ARIAv2 milestone check (`checkMilestones` / `tryExtractSkill`) -/

inductive MilestoneTag where
  | experiences
  | qtable
  | skill
  deriving Repr, DecidableEq

/-- The metric snapshot `checkMilestones` reads. -/
structure MilestoneInput where
  expSize : ℕ
  qSize : ℕ
  skillCount : ℕ
  insightCount : ℕ
  iteration : ℕ
  skillsExtracted : ℕ
  deriving Repr, DecidableEq

/-- `checkMilestones`: the three independent threshold checks, in program
order. -/
def checkMilestones (i : MilestoneInput) : List MilestoneTag :=
  (if i.expSize = 100 then [MilestoneTag.experiences] else []) ++
  (if i.qSize > 0 ∧ i.qSize % 50 = 0 ∧ i.iteration > 10 then [MilestoneTag.qtable] else []) ++
  (if i.skillCount > 0 ∧ i.skillCount ≠ i.skillsExtracted then [MilestoneTag.skill] else [])

/-- The two counters `checkMilestones` compares for the skill milestone. -/
structure SkillCounters where
  skillCount : ℕ
  skillsExtracted : ℕ
  deriving Repr, DecidableEq

/-- Effect of one loop iteration's `tryExtractSkill` on the two counters:
when `synthesize` returns a skill it is added to the library (a fresh id,
so the count grows by one) and `metrics.skillsExtracted` is incremented. -/
def extractStep (s : SkillCounters) (extracted : Bool) : SkillCounters :=
  if extracted then
    { skillCount := s.skillCount + 1, skillsExtracted := s.skillsExtracted + 1 }
  else s

def initialSkillCounters : SkillCounters :=
  { skillCount := 0, skillsExtracted := 0 }

end Cortex

namespace Cortex

/-! ### Concrete fixtures used by witnesses and counterexamples -/

/-- A concrete skill keyed by id `"k1"`. -/
def skillW : Skill :=
  { id := "k1", name := "n", description := "d",
    goalPatterns := ["research"], requiredTools := ["search"],
    contextIndicators := ["token"], steps := [], successIndicators := [],
    expectedOutputFormat := "", sourceTrajectory := "", successRate := 1,
    usageCount := 0, createdAt := 0, lastUsed := 0 }

/-- A concrete contrastive trajectory record. -/
def trajW (i g : String) (b : Bool) : TrajRec :=
  { id := i, goal := g, actions := [], success := b, finalScore := 1/2,
    context := [], timestamp := 0 }

/-- A concrete reflexion trajectory. -/
def trajRW : Trajectory :=
  { goal := "find the token", actions := [], outcome := Outcome.failure,
    finalResult := "r" }

/-- A concrete reflection. -/
def reflWitness : Reflection :=
  { trajectory := trajRW, diagnosis := "d", lessons := ["l1"], corrections := [],
    confidence := 7/10, timestamp := 0 }

/-- A concrete textual gradient. -/
def gradW : TextualGradient :=
  { strategyId := "s1", successRate := 1/2, recentOutcomes := [],
    modifications := GradientMods.empty, reasoning := "r", magnitude := 1/2,
    timestamp := 0 }

/-- A concrete replay state. -/
def rstW : ReplayState :=
  { buffer := [eIso 1], maxSize := 10, qTable := singleQ "s" "a" (1/2),
    alpha := 1/10, gamma := 19/20, epsilon := 1/5 }

/-- A concrete reflexion state. -/
def xstW : ReflexionState :=
  { lessons := [("g one", ["l1"])], reflections := [reflWitness] }

/-- A concrete skill-library state. -/
def sstW : SkillLibState :=
  { skills := [("k1", skillW)], minConfidence := 3/4 }

/-- A concrete contrastive state. -/
def cstW : ContrastiveState :=
  { trajectories := [("t1", trajW "t1" "research the token" true)], insights := [],
    minSimilarity := 1/2 }

/-- A concrete gradient-engine state. -/
def gstW : GradientEngineState :=
  { learningRate := 1/2, gradientHistory := [gradW] }

/-- A concrete strategy object: `steps` in cell 0, `heuristics` in cell 1. -/
def stratC10 : StrategyObj :=
  { id := "s1", name := "n", description := "d", systemPrompt := "p",
    stepsRef := 0, heuristicsRef := 1, successRate := 1/2 }

/-- The matching concrete store. -/
def storeC10 : Store :=
  [["old"], []]

/-- A concrete gradient carrying one step modification. -/
def gradC10 : TextualGradient :=
  { strategyId := "s1", successRate := 1/2, recentOutcomes := [],
    modifications :=
      { addHeuristics := [], removeHeuristics := [],
        modifySteps := [{ original := "old", modified := "new" }],
        promptAdjustments := [] },
    reasoning := "r", magnitude := 1, timestamp := 0 }

end Cortex

namespace Cortex

/-! ### Helper lemmas for the update refinement -/

theorem updateStep_fst (alpha gamma : ℚ) (acc : QTable × ℚ × List String)
    (e : Experience) :
    (updateStep alpha gamma acc e).1 = applyTD alpha gamma acc.1 e := by
  simp [updateStep, applyTD, tdErr, tdTarget]

theorem foldl_updateStep (alpha gamma : ℚ) (batch : List Experience)
    (q : QTable) (t : ℚ) (sts : List String) :
    batch.foldl (updateStep alpha gamma) (q, t, sts) =
      (batch.foldl (applyTD alpha gamma) q,
       t + (onlineAbsErrors alpha gamma q batch).sum,
       batch.foldl (fun l e => if l.contains e.state then l else l ++ [e.state]) sts) := by
  induction batch generalizing q t sts with
  | nil => simp [onlineAbsErrors]
  | cons e es ih =>
    simp only [List.foldl_cons, onlineAbsErrors, List.sum_cons]
    rw [ih]
    simp [updateStep, applyTD, tdErr, tdTarget]
    ring_nf

/-- The `updatedStates` accumulator has no duplicates (given a nodup start). -/
theorem foldl_addState_nodup (batch : List Experience) (sts : List String)
    (h : sts.Nodup) :
    (batch.foldl (fun l e => if l.contains e.state then l else l ++ [e.state]) sts).Nodup := by
  induction batch generalizing sts with
  | nil => exact h
  | cons e es ih =>
    simp only [List.foldl_cons]
    by_cases hc : e.state ∈ sts
    · rw [if_pos (by simpa using hc)]
      exact ih sts h
    · rw [if_neg (by simpa using hc)]
      exact ih _ (by simp [List.nodup_append, h, hc])

/-- Membership in the `updatedStates` accumulator. -/
theorem foldl_addState_mem (batch : List Experience) (sts : List String) (x : String) :
    x ∈ batch.foldl (fun l e => if l.contains e.state then l else l ++ [e.state]) sts ↔
      x ∈ sts ∨ x ∈ batch.map Experience.state := by
  induction batch generalizing sts with
  | nil => simp
  | cons e es ih =>
    simp only [List.foldl_cons]
    by_cases hc : e.state ∈ sts
    · rw [if_pos (by simpa using hc), ih]
      simp only [List.map_cons, List.mem_cons]
      constructor
      · rintro (h | h)
        · exact Or.inl h
        · exact Or.inr (Or.inr h)
      · rintro (h | h | h)
        · exact Or.inl h
        · exact Or.inl (h ▸ hc)
        · exact Or.inr h
    · rw [if_neg (by simpa using hc), ih]
      simp only [List.mem_append, List.mem_singleton, List.map_cons, List.mem_cons]
      tauto

end Cortex

namespace Cortex

/-- The `updatedStates` set has as many elements as there are distinct
state signatures in the batch. -/
theorem foldl_addState_length (batch : List Experience) :
    (batch.foldl (fun l e => if l.contains e.state then l else l ++ [e.state]) []).length =
      (batch.map Experience.state).dedup.length := by
  have hnd : (batch.foldl (fun l e => if l.contains e.state then l else l ++ [e.state])
      []).Nodup := foldl_addState_nodup batch [] List.nodup_nil
  have hperm :
      List.Perm
        (batch.foldl (fun l e => if l.contains e.state then l else l ++ [e.state]) [])
        (batch.map Experience.state).dedup := by
    rw [List.perm_ext_iff_of_nodup hnd (List.nodup_dedup _)]
    intro x
    rw [List.mem_dedup, foldl_addState_mem]
    simp
  exact hperm.length_eq

/-- C1 (confirmed).  `update(batchSize)`, run on any Q-table and any batch
the prioritized sampler drew, (i) revises each sampled transition's
`(state, action)` value in place by `value += α·(target − value)` with
`target = reward + γ·max_a Q(nextState, a)` (0 when `nextState` has no
entries), folding the revisions left to right so that each transition
reads the table as already modified by the earlier ones; (ii) returns the
mean of the absolute TD errors of that online sequence (0 for an empty
batch); and (iii) returns the number of distinct state signatures
touched. -/
theorem claim_C1_update_is_online_td (alpha gamma : ℚ) (q : QTable)
    (batch : List Experience) :
    updateQ alpha gamma q batch =
      (batch.foldl (applyTD alpha gamma) q,
       (if batch = [] then 0 else (onlineAbsErrors alpha gamma q batch).sum / batch.length),
       (batch.map Experience.state).dedup.length) := by
  unfold updateQ
  rw [foldl_updateStep]
  refine Prod.ext rfl (Prod.ext ?_ ?_)
  · cases batch with
    | nil => simp [onlineAbsErrors]
    | cons e es => simp
  · simpa using foldl_addState_length batch

end Cortex

namespace Cortex

/-! ### Claim C2: error contraction for an isolated transition -/

theorem getQ_singleQ_self (s a : String) (v : ℚ) : getQ (singleQ s a v) s a = v := by
  simp [getQ, singleQ, mapGet, List.lookup]

theorem getMaxQ_singleQ_self (s a : String) (v : ℚ) : getMaxQ (singleQ s a v) s = v := by
  simp [getMaxQ, singleQ, mapGet, List.lookup, listMax]

theorem getMaxQ_singleQ_ne (s a s' : String) (v : ℚ) (h : s' ≠ s) :
    getMaxQ (singleQ s a v) s' = 0 := by
  have hb1 : (s' == s) = false := beq_eq_false_iff_ne.mpr h
  have hb2 : (s == s') = false := beq_eq_false_iff_ne.mpr (Ne.symm h)
  simp [getMaxQ, singleQ, mapGet, List.lookup, hb1, hb2]

theorem setQ_singleQ (s a : String) (v w : ℚ) :
    setQ (singleQ s a v) s a w = singleQ s a w := by
  simp [setQ, singleQ, mapGet, mapSet, List.lookup]

theorem updateQ_fst_single (alpha gamma : ℚ) (q : QTable) (e : Experience) :
    (updateQ alpha gamma q [e]).1 = applyTD alpha gamma q e := by
  simp [updateQ, updateStep_fst]

theorem applyTD_singleQ (alpha gamma v : ℚ) (e : Experience) :
    applyTD alpha gamma (singleQ e.state e.action v) e =
      singleQ e.state e.action (v + alpha * tdErr gamma (singleQ e.state e.action v) e) := by
  rw [applyTD, getQ_singleQ_self, setQ_singleQ]

theorem eIso_tdErr_singleQ (r v : ℚ) :
    tdErr (19/20) (singleQ "s" "a" v) (eIso r) = r - v := by
  have h1 : getMaxQ (singleQ "s" "a" v) "t" = 0 :=
    getMaxQ_singleQ_ne "s" "a" "t" v (by decide)
  simp only [tdErr, tdTarget, eIso]
  rw [h1, getQ_singleQ_self]
  ring

/-- Counterexample to C2 as stated: a fresh `ExperienceReplay` with the
default hyperparameters holding the single stored transition
`("s", "a", reward 0, "t")` already has `|target − value| = 0`, and
`update()` leaves it at 0 — the quantity is not strictly decreased. -/
theorem claim_C2_counterexample :
    ¬ (|tdErr (19/20)
          (updateQ (1/10) (19/20)
            ((ReplayState.fresh 10000 (1/10) (19/20) (1/5)).storeExp (eIso 0)).qTable
            [eIso 0]).1 (eIso 0)| <
        |tdErr (19/20)
          ((ReplayState.fresh 10000 (1/10) (19/20) (1/5)).storeExp (eIso 0)).qTable
          (eIso 0)|) := by
  have hq0 : ((ReplayState.fresh 10000 (1/10) (19/20) (1/5)).storeExp (eIso 0)).qTable =
      singleQ "s" "a" 0 := rfl
  rw [hq0, updateQ_fst_single]
  have happ : applyTD (1/10) (19/20) (singleQ "s" "a" 0) (eIso 0) =
      singleQ "s" "a" ((0:ℚ) + 1/10 * tdErr (19/20) (singleQ "s" "a" 0) (eIso 0)) :=
    applyTD_singleQ (1/10) (19/20) 0 (eIso 0)
  have h0 : tdErr (19/20) (singleQ "s" "a" 0) (eIso 0) = 0 := by
    rw [eIso_tdErr_singleQ]; ring
  rw [happ, h0]
  have h1 : tdErr (19/20) (singleQ "s" "a" ((0:ℚ) + 1/10 * 0)) (eIso 0) = 0 := by
    rw [eIso_tdErr_singleQ]; ring
  rw [h1]
  simp

/-- C2 (amended).  For a transition held in isolation — the buffer holds
only that transition and the value table holds only its own
`(state, action)` key — one `update()` call with `0 < α < 1` and
`0 ≤ γ < 1` keeps the table in that single-key shape and strictly
decreases `|target − value|` whenever that error is nonzero (when the
error is already zero it stays zero, which is where the original claim
fails). -/
theorem claim_C2_amended_error_contracts (alpha gamma v : ℚ) (e : Experience)
    (h0 : 0 < alpha) (h1 : alpha < 1) (hg0 : 0 ≤ gamma) (hg1 : gamma < 1)
    (hne : tdErr gamma (singleQ e.state e.action v) e ≠ 0) :
    (updateQ alpha gamma (singleQ e.state e.action v) [e]).1 =
      singleQ e.state e.action
        (v + alpha * tdErr gamma (singleQ e.state e.action v) e) ∧
    |tdErr gamma (updateQ alpha gamma (singleQ e.state e.action v) [e]).1 e| <
      |tdErr gamma (singleQ e.state e.action v) e| := by
  have hq1 : (updateQ alpha gamma (singleQ e.state e.action v) [e]).1 =
      singleQ e.state e.action
        (v + alpha * tdErr gamma (singleQ e.state e.action v) e) := by
    rw [updateQ_fst_single, applyTD_singleQ]
  refine ⟨hq1, ?_⟩
  rw [hq1]
  set E := tdErr gamma (singleQ e.state e.action v) e with hE
  by_cases hns : e.nextState = e.state
  · -- the transition loops back onto its own state
    have hfac : tdErr gamma (singleQ e.state e.action (v + alpha * E)) e =
        (1 - alpha * (1 - gamma)) * E := by
      have hEexp : E = e.reward + gamma * v - v := by
        rw [hE, tdErr, tdTarget, hns, getMaxQ_singleQ_self, getQ_singleQ_self]
      rw [tdErr, tdTarget, hns, getMaxQ_singleQ_self, getQ_singleQ_self, hEexp]
      ring
    rw [hfac, abs_mul]
    have hc0 : 0 < 1 - alpha * (1 - gamma) := by nlinarith
    have hc1 : 1 - alpha * (1 - gamma) < 1 := by nlinarith
    calc |1 - alpha * (1 - gamma)| * |E| = (1 - alpha * (1 - gamma)) * |E| := by
          rw [abs_of_pos hc0]
      _ < 1 * |E| := by
          exact mul_lt_mul_of_pos_right hc1 (abs_pos.mpr hne)
      _ = |E| := one_mul _
  · -- the next state is a different (hence empty) state
    have hfac : tdErr gamma (singleQ e.state e.action (v + alpha * E)) e =
        (1 - alpha) * E := by
      have hEexp : E = e.reward + gamma * 0 - v := by
        rw [hE, tdErr, tdTarget, getMaxQ_singleQ_ne _ _ _ _ hns, getQ_singleQ_self]
      rw [tdErr, tdTarget, getMaxQ_singleQ_ne _ _ _ _ hns, getQ_singleQ_self, hEexp]
      ring
    rw [hfac, abs_mul]
    have hc0 : 0 < 1 - alpha := by linarith
    calc |1 - alpha| * |E| = (1 - alpha) * |E| := by rw [abs_of_pos hc0]
      _ < 1 * |E| := by
          exact mul_lt_mul_of_pos_right (by linarith) (abs_pos.mpr hne)
      _ = |E| := one_mul _

/-- Concrete instance of the amended C2 theorem with all hypotheses
discharged: reward 1, value 0, default `α = 0.1`, `γ = 0.95`. -/
theorem claim_C2_witness :
    (0:ℚ) < 1/10 ∧ (1:ℚ)/10 < 1 ∧ (0:ℚ) ≤ 19/20 ∧ (19:ℚ)/20 < 1 ∧
    tdErr (19/20) (singleQ (eIso 1).state (eIso 1).action (0:ℚ)) (eIso 1) ≠ 0 ∧
    |tdErr (19/20)
        (updateQ (1/10) (19/20) (singleQ (eIso 1).state (eIso 1).action (0:ℚ))
          [eIso 1]).1 (eIso 1)| <
      |tdErr (19/20) (singleQ (eIso 1).state (eIso 1).action (0:ℚ)) (eIso 1)| := by
  have hne : tdErr (19/20) (singleQ (eIso 1).state (eIso 1).action (0:ℚ)) (eIso 1) ≠ 0 := by
    have : tdErr (19/20) (singleQ "s" "a" (0:ℚ)) (eIso 1) = 1 := by
      rw [eIso_tdErr_singleQ]; ring
    simpa [eIso] using this.symm ▸ (by norm_num : (1:ℚ) ≠ 0)
  exact ⟨by norm_num, by norm_num, by norm_num, by norm_num, hne,
    (claim_C2_amended_error_contracts (1/10) (19/20) 0 (eIso 1)
      (by norm_num) (by norm_num) (by norm_num) (by norm_num) hne).2⟩

end Cortex

namespace Cortex

/-! ### Claims C3 and C4: parse-failure fallbacks -/

/-- Counterexample to C3 as stated: with one all-successful recent outcome
and an unparsable model response, the fallback gradient's magnitude is
0.1, not `1 − observedSuccessRate = 0`. -/
theorem claim_C3_counterexample :
    (computeGradient [] "strat" [{ success := true, context := "ok" }] none 0).1.magnitude ≠
      1 - observedSuccessRate [{ success := true, context := "ok" }] := by
  have hm : (computeGradient [] "strat" [{ success := true, context := "ok" }] none 0).1.magnitude
      = 1/10 := rfl
  have hs : observedSuccessRate [{ success := true, context := "ok" }] = 1 := by
    simp [observedSuccessRate]
  rw [hm, hs]
  norm_num

/-- C3 (amended).  When the model response passed to `computeGradient`
contains no parseable JSON object, the returned gradient has all four
modification lists empty — but its magnitude is the constant 0.1, not
`1 − observedSuccessRate` (that value is only the default for a parsed
JSON object whose `magnitude` field is not a number). -/
theorem claim_C3_amended_parse_failure_gradient (history : List TextualGradient)
    (strategyId : String) (outcomes : List OutcomeRec) (now : ℕ) :
    (computeGradient history strategyId outcomes none now).1.modifications =
        GradientMods.empty ∧
      (computeGradient history strategyId outcomes none now).1.magnitude = 1/10 ∧
      (computeGradient history strategyId outcomes none now).2 =
        history ++ [(computeGradient history strategyId outcomes none now).1] := by
  refine ⟨rfl, rfl, rfl⟩

/-- C4 (confirmed).  With the default configuration (storing threshold
0.6), a `reflect` call whose model response contains no parseable JSON
object returns the fallback reflection — confidence exactly 0.3, empty
lessons and corrections — and leaves the engine state (in particular the
per-goal lesson map) unchanged. -/
theorem claim_C4_parse_failure_reflection (lessons : List (String × List String))
    (reflections : List Reflection) (trajectory : Trajectory) (now : ℕ) :
    reflect defaultReflexionCfg ⟨lessons, reflections⟩ trajectory none now =
      ({ trajectory := trajectory, diagnosis := "Failed to parse reflection",
         lessons := [], corrections := [], confidence := 3/10, timestamp := now },
       ⟨lessons, reflections⟩) := by
  rw [reflect]
  have hge : ¬ ((parseReflection trajectory none now).confidence ≥
      defaultReflexionCfg.minConfidence) := by
    simp [parseReflection, defaultReflexionCfg]
    norm_num
  rw [if_neg hge]
  rfl

end Cortex

namespace Cortex

/-! ### Association-list lemmas -/

theorem mapGet_mapSet_self {β : Type} (m : List (String × β)) (k : String) (v : β) :
    mapGet (mapSet m k v) k = some v := by
  induction m with
  | nil => simp [mapSet, mapGet, List.lookup]
  | cons p rest ih =>
    obtain ⟨k', v'⟩ := p
    by_cases h : k' = k
    · subst h
      simp [mapSet, mapGet, List.lookup]
    · have hb : (k == k') = false := beq_eq_false_iff_ne.mpr (Ne.symm h)
      simpa [mapSet, mapGet, List.lookup, h, hb] using ih

theorem mapGet_mapSet_ne {β : Type} (m : List (String × β)) (k k' : String) (v : β)
    (h : k' ≠ k) :
    mapGet (mapSet m k v) k' = mapGet m k' := by
  have hb : (k' == k) = false := beq_eq_false_iff_ne.mpr h
  induction m with
  | nil =>
    simp [mapSet, mapGet, List.lookup, hb]
  | cons p rest ih =>
    obtain ⟨k₀, v₀⟩ := p
    by_cases h0 : k₀ = k
    · subst h0
      simp [mapSet, mapGet, List.lookup, hb]
    · by_cases h1 : k' = k₀
      · subst h1
        simp [mapSet, mapGet, List.lookup, h0]
      · have hb1 : (k' == k₀) = false := beq_eq_false_iff_ne.mpr h1
        simpa [mapSet, mapGet, List.lookup, h0, hb1] using ih

/-! ### Lesson-trimming lemmas (claim C5) -/

theorem trimLessons_eq_drop (mx : ℕ) (l : List String) :
    trimLessons mx l = l.drop (l.length - mx) := by
  induction l with
  | nil => simp [trimLessons]
  | cons x xs ih =>
    by_cases h : xs.length + 1 > mx
    · have hd : (x :: xs).length - mx = (xs.length - mx) + 1 := by
        simp only [List.length_cons]
        omega
      rw [trimLessons, if_pos h, ih, hd, List.drop_succ_cons]
    · have hd : (x :: xs).length - mx = 0 := by
        simp only [List.length_cons]
        omega
      rw [trimLessons, if_neg h, hd, List.drop_zero]

theorem trimLessons_length (mx : ℕ) (l : List String) :
    (trimLessons mx l).length = min l.length mx := by
  rw [trimLessons_eq_drop, List.length_drop]
  omega

theorem trimLessons_nodup (mx : ℕ) (l : List String) (h : l.Nodup) :
    (trimLessons mx l).Nodup := by
  rw [trimLessons_eq_drop]
  exact List.Nodup.sublist (List.drop_sublist _ _) h

theorem addNewLessons_nodup (ls : List String) (cur : List String) (h : cur.Nodup) :
    (addNewLessons cur ls).Nodup := by
  induction ls generalizing cur with
  | nil => exact h
  | cons l ls ih =>
    rw [addNewLessons, List.foldl_cons]
    by_cases hc : cur.contains l
    · rw [if_pos hc]
      exact ih cur h
    · rw [if_neg hc]
      refine ih _ ?_
      have hm : l ∉ cur := by simpa using hc
      simp [List.nodup_append, h, hm]

/-- The lesson bucket of `storeReflection` at an arbitrary signature. -/
theorem storeReflection_bucket (cfg : ReflexionCfg) (st : ReflexionState)
    (r : Reflection) (sig : String) :
    (mapGet (storeReflection cfg st r).lessons sig).getD [] =
      (if sig = goalSignature r.trajectory.goal
       then trimLessons cfg.maxLessons
         (addNewLessons
           ((mapGet st.lessons (goalSignature r.trajectory.goal)).getD []) r.lessons)
       else (mapGet st.lessons sig).getD []) := by
  by_cases h : sig = goalSignature r.trajectory.goal
  · rw [if_pos h, storeReflection]
    simp only [h]
    rw [mapGet_mapSet_self]
    rfl
  · rw [if_neg h, storeReflection]
    simp only []
    rw [mapGet_mapSet_ne _ _ _ _ h]

/-- Any lesson bucket of any state reachable by `reflect` calls stays
within the cap and duplicate-free. -/
theorem reflect_foldl_bucket_invariant (cfg : ReflexionCfg)
    (calls : List (Trajectory × Option ParsedReflection × ℕ)) (st : ReflexionState)
    (h : ∀ sig, ((mapGet st.lessons sig).getD []).length ≤ cfg.maxLessons ∧
      ((mapGet st.lessons sig).getD []).Nodup) :
    ∀ sig,
      ((mapGet (calls.foldl (fun s c => (reflect cfg s c.1 c.2.1 c.2.2).2) st).lessons
          sig).getD []).length ≤ cfg.maxLessons ∧
      ((mapGet (calls.foldl (fun s c => (reflect cfg s c.1 c.2.1 c.2.2).2) st).lessons
          sig).getD []).Nodup := by
  induction calls generalizing st with
  | nil => exact h
  | cons c cs ih =>
    rw [List.foldl_cons]
    refine ih _ ?_
    intro sig
    rw [reflect]
    by_cases hconf : (parseReflection c.1 c.2.1 c.2.2).confidence ≥ cfg.minConfidence
    · rw [if_pos hconf]
      simp only []
      rw [storeReflection_bucket]
      by_cases hsig : sig = goalSignature (parseReflection c.1 c.2.1 c.2.2).trajectory.goal
      · rw [if_pos hsig]
        constructor
        · rw [trimLessons_length]
          omega
        · exact trimLessons_nodup _ _
            (addNewLessons_nodup _ _ (h _).2)
      · rw [if_neg hsig]
        exact h sig
    · rw [if_neg hconf]
      exact h sig

/-- C5 (confirmed).  (i) After any sequence of `reflect` calls on a fresh
engine, every goal signature's stored lesson list has at most
`maxLessons` entries and never holds a duplicate; (ii) one
`storeReflection` leaves the touched bucket equal to the deduplicated
append of the new lessons with the oldest entries dropped from the front
(FIFO); and (iii) its length is exactly `maxLessons` whenever the
deduplicated append would meet or exceed the cap (`min` of the two). -/
theorem claim_C5_lesson_cap_fifo_dedup (cfg : ReflexionCfg)
    (calls : List (Trajectory × Option ParsedReflection × ℕ)) (sig : String)
    (st : ReflexionState) (r : Reflection) :
    (((mapGet (calls.foldl (fun s c => (reflect cfg s c.1 c.2.1 c.2.2).2)
          ReflexionState.fresh).lessons sig).getD []).length ≤ cfg.maxLessons ∧
      ((mapGet (calls.foldl (fun s c => (reflect cfg s c.1 c.2.1 c.2.2).2)
          ReflexionState.fresh).lessons sig).getD []).Nodup) ∧
    (mapGet (storeReflection cfg st r).lessons (goalSignature r.trajectory.goal)).getD [] =
      (addNewLessons
          ((mapGet st.lessons (goalSignature r.trajectory.goal)).getD []) r.lessons).drop
        ((addNewLessons
          ((mapGet st.lessons (goalSignature r.trajectory.goal)).getD []) r.lessons).length -
          cfg.maxLessons) ∧
    ((mapGet (storeReflection cfg st r).lessons (goalSignature r.trajectory.goal)).getD
        []).length =
      min (addNewLessons
          ((mapGet st.lessons (goalSignature r.trajectory.goal)).getD []) r.lessons).length
        cfg.maxLessons := by
  refine ⟨?_, ?_, ?_⟩
  · refine reflect_foldl_bucket_invariant cfg calls ReflexionState.fresh ?_ sig
    intro s
    simp [ReflexionState.fresh, mapGet, List.lookup]
  · rw [storeReflection_bucket, if_pos rfl, trimLessons_eq_drop]
  · rw [storeReflection_bucket, if_pos rfl, trimLessons_length]

end Cortex

namespace Cortex

/-! ### Claim C6: skill match score is monotone in available tools -/

theorem patternScore_nonneg (rtest : RegexTest) (goal goalLower : String)
    (ps : List String) : 0 ≤ patternScore rtest goal goalLower ps := by
  induction ps with
  | nil => simp [patternScore]
  | cons p ps ih =>
    rw [patternScore]
    cases h : rtest p goal with
    | none =>
      by_cases hc : strContains goalLower (lowerStr p)
      · rw [if_pos hc]; norm_num
      · rw [if_neg hc]; exact ih
    | some b =>
      cases b
      · exact ih
      · norm_num

theorem indicatorScore_nonneg (goalLower : String) (indicators : List String) :
    0 ≤ indicatorScore goalLower indicators := by
  unfold indicatorScore
  positivity

theorem all_contains_append (req tools : List String) (t : String)
    (h : req.all (fun x => tools.contains x) = true) :
    req.all (fun x => (tools ++ [t]).contains x) = true := by
  rw [List.all_eq_true] at h ⊢
  intro x hx
  have hx' := h x hx
  simp at hx' ⊢
  exact Or.inl hx'

/-- C6 (confirmed).  For any skill, goal, and regex oracle, appending one
more tool name to `availableTools` never decreases `scoreSkillMatch`: the
additive pattern/indicator base is unchanged and nonnegative, and the tool
check can only move from the halving penalty to the +0.3 bonus. -/
theorem claim_C6_score_monotone_in_tools (rtest : RegexTest) (skill : Skill)
    (goal : String) (tools : List String) (t : String) :
    scoreSkillMatch rtest skill goal tools ≤
      scoreSkillMatch rtest skill goal (tools ++ [t]) := by
  unfold scoreSkillMatch
  have hb : 0 ≤ patternScore rtest goal (lowerStr goal) skill.goalPatterns +
      indicatorScore (lowerStr goal) skill.contextIndicators :=
    add_nonneg (patternScore_nonneg _ _ _ _) (indicatorScore_nonneg _ _)
  by_cases h1 : skill.requiredTools.all (fun x => tools.contains x) = true
  · have h2 := all_contains_append _ _ t h1
    simp only [h1, h2, if_true]
    exact le_refl _
  · have h1' : skill.requiredTools.all (fun x => tools.contains x) = false :=
      eq_false_of_ne_true h1
    by_cases h2 : skill.requiredTools.all (fun x => (tools ++ [t]).contains x) = true
    · simp only [h1', h2, if_true, Bool.false_eq_true, if_false]
      refine min_le_min (le_refl 1) ?_
      linarith
    · have h2' : skill.requiredTools.all (fun x => (tools ++ [t]).contains x) = false :=
        eq_false_of_ne_true h2
      simp only [h1', h2', Bool.false_eq_true, if_false]
      exact le_refl _

end Cortex

namespace Cortex

/-! ### Claim C7: export/import round-trip -/

theorem mapSet_of_not_mem_keys {β : Type} (m : List (String × β)) (k : String) (v : β)
    (h : k ∉ m.map Prod.fst) :
    mapSet m k v = m ++ [(k, v)] := by
  induction m with
  | nil => rfl
  | cons p rest ih =>
    obtain ⟨k₀, v₀⟩ := p
    simp only [List.map_cons, List.mem_cons, not_or] at h
    rw [mapSet, if_neg (fun he => h.1 he.symm), ih h.2]
    rfl

theorem foldl_mapSet_entries {β : Type} (l : List (String × β)) :
    ∀ (acc : List (String × β)), (l.map Prod.fst).Nodup →
    (∀ k ∈ l.map Prod.fst, k ∉ acc.map Prod.fst) →
    l.foldl (fun m p => mapSet m p.1 p.2) acc = acc ++ l := by
  induction l with
  | nil => intro acc _ _; simp
  | cons p l ih =>
    intro acc hnd hdisj
    simp only [List.map_cons, List.nodup_cons] at hnd
    have hp : p.1 ∉ acc.map Prod.fst := hdisj p.1 (by simp)
    rw [List.foldl_cons, mapSet_of_not_mem_keys acc p.1 p.2 hp]
    have step := ih (acc ++ [(p.1, p.2)]) hnd.2 ?_
    · rw [step, List.append_assoc]
      rfl
    · intro k hk
      simp only [List.map_append, List.mem_append, not_or]
      refine ⟨hdisj k (by simp [hk]), ?_⟩
      simp only [List.map_cons, List.map_nil, List.mem_singleton]
      intro he
      exact hnd.1 (he ▸ hk)

theorem mapOfEntries_id {β : Type} (l : List (String × β))
    (h : (l.map Prod.fst).Nodup) :
    mapOfEntries l = l := by
  have := foldl_mapSet_entries l [] h (by simp)
  simpa [mapOfEntries] using this

/-- Re-inserting the exported values keyed by their own ids rebuilds an
id-keyed map exactly. -/
theorem foldl_mapSet_keyed {β : Type} (key : β → String) (l : List (String × β))
    (hnd : (l.map Prod.fst).Nodup) (hkey : ∀ p ∈ l, key p.2 = p.1) :
    (l.map Prod.snd).foldl (fun m b => mapSet m (key b) b) [] = l := by
  rw [List.foldl_map]
  have hext : ∀ (m : List (String × β)), ∀ p ∈ l,
      mapSet m (key p.2) p.2 = mapSet m p.1 p.2 := by
    intro m p hp
    rw [hkey p hp]
  rw [List.foldl_ext _ _ _ hext]
  have hpair : ∀ (m : List (String × β)), ∀ p : String × β,
      mapSet m p.1 p.2 = mapSet m p.1 p.2 := fun _ _ => rfl
  exact foldl_mapSet_entries l [] hnd (by simp)

/-- C7 (confirmed).  For each stateful learning component, importing the
exported snapshot into a freshly constructed instance with the same
configuration reproduces every public query result: replay buffer size,
Q-table and its size, epsilon; reflexion totals and recent reflections;
the skill list and count (given the library invariant that each skill is
keyed by its own id); contrastive trajectory/insight counts and win rate
(same invariant); and the gradient history with its average magnitude. -/
theorem claim_C7_export_import_roundtrip (rst : ReplayState) (eps0 : ℚ)
    (xst : ReflexionState) (n : ℕ) (sst : SkillLibState) (cst : ContrastiveState)
    (gst : GradientEngineState)
    (hx : (xst.lessons.map Prod.fst).Nodup)
    (hs1 : (sst.skills.map Prod.fst).Nodup)
    (hs2 : ∀ p ∈ sst.skills, p.2.id = p.1)
    (hc1 : (cst.trajectories.map Prod.fst).Nodup)
    (hc2 : ∀ p ∈ cst.trajectories, p.2.id = p.1) :
    ((ReplayState.fresh rst.maxSize rst.alpha rst.gamma eps0).importData
        rst.exportData).getBufferSize = rst.getBufferSize ∧
    ((ReplayState.fresh rst.maxSize rst.alpha rst.gamma eps0).importData
        rst.exportData).getQTable = rst.getQTable ∧
    ((ReplayState.fresh rst.maxSize rst.alpha rst.gamma eps0).importData
        rst.exportData).getQTableSize = rst.getQTableSize ∧
    ((ReplayState.fresh rst.maxSize rst.alpha rst.gamma eps0).importData
        rst.exportData).getEpsilon = rst.getEpsilon ∧
    (ReflexionState.fresh.importData xst.exportData).getTotalReflections =
      xst.getTotalReflections ∧
    (ReflexionState.fresh.importData xst.exportData).getTotalLessons =
      xst.getTotalLessons ∧
    (ReflexionState.fresh.importData xst.exportData).getRecentReflections n =
      xst.getRecentReflections n ∧
    ((SkillLibState.fresh sst.minConfidence).importData sst.exportData).getAllSkills =
      sst.getAllSkills ∧
    ((SkillLibState.fresh sst.minConfidence).importData sst.exportData).getTotalSkills =
      sst.getTotalSkills ∧
    ((ContrastiveState.fresh cst.minSimilarity).importData
        cst.exportData).getTotalTrajectories = cst.getTotalTrajectories ∧
    ((ContrastiveState.fresh cst.minSimilarity).importData
        cst.exportData).getTotalInsights = cst.getTotalInsights ∧
    ((ContrastiveState.fresh cst.minSimilarity).importData cst.exportData).getWinRate =
      cst.getWinRate ∧
    ((GradientEngineState.fresh gst.learningRate).importData
        gst.exportData).getGradientHistory = gst.getGradientHistory ∧
    ((GradientEngineState.fresh gst.learningRate).importData
        gst.exportData).getAverageMagnitude = gst.getAverageMagnitude := by
  have hxles : (ReflexionState.fresh.importData xst.exportData).lessons = xst.lessons := by
    simp only [ReflexionState.importData, ReflexionState.exportData, ReflexionState.fresh]
    exact mapOfEntries_id xst.lessons hx
  have hskills : ((SkillLibState.fresh sst.minConfidence).importData
      sst.exportData).skills = sst.skills := by
    simp only [SkillLibState.importData, SkillLibState.exportData,
      SkillLibState.getAllSkills, SkillLibState.fresh]
    exact foldl_mapSet_keyed Skill.id sst.skills hs1 hs2
  have htraj : ((ContrastiveState.fresh cst.minSimilarity).importData
      cst.exportData).trajectories = cst.trajectories := by
    simp only [ContrastiveState.importData, ContrastiveState.exportData,
      ContrastiveState.fresh]
    exact foldl_mapSet_keyed TrajRec.id cst.trajectories hc1 hc2
  refine ⟨rfl, rfl, rfl, rfl, rfl, ?_, rfl, ?_, ?_, ?_, rfl, ?_, rfl, rfl⟩
  · simp only [ReflexionState.getTotalLessons, hxles]
  · simp only [SkillLibState.getAllSkills, hskills]
  · simp only [SkillLibState.getTotalSkills, hskills]
  · simp only [ContrastiveState.getTotalTrajectories, htraj]
  · simp only [ContrastiveState.getWinRate, htraj]

end Cortex

namespace Cortex

/-- Concrete instance of the C7 round-trip theorem with its key-uniqueness
hypotheses discharged on small populated states. -/
theorem claim_C7_witness :
    ((xstW.lessons.map Prod.fst).Nodup ∧
     (sstW.skills.map Prod.fst).Nodup ∧
     (∀ p ∈ sstW.skills, p.2.id = p.1) ∧
     (cstW.trajectories.map Prod.fst).Nodup ∧
     (∀ p ∈ cstW.trajectories, p.2.id = p.1)) ∧
    (ReflexionState.fresh.importData xstW.exportData).getTotalLessons =
      xstW.getTotalLessons ∧
    ((SkillLibState.fresh sstW.minConfidence).importData sstW.exportData).getAllSkills =
      sstW.getAllSkills ∧
    ((ContrastiveState.fresh cstW.minSimilarity).importData cstW.exportData).getWinRate =
      cstW.getWinRate := by
  have h1 : (xstW.lessons.map Prod.fst).Nodup := by simp [xstW]
  have h2 : (sstW.skills.map Prod.fst).Nodup := by simp [sstW]
  have h3 : ∀ p ∈ sstW.skills, p.2.id = p.1 := by
    intro p hp
    simp only [sstW, List.mem_singleton] at hp
    subst hp
    rfl
  have h4 : (cstW.trajectories.map Prod.fst).Nodup := by simp [cstW]
  have h5 : ∀ p ∈ cstW.trajectories, p.2.id = p.1 := by
    intro p hp
    simp only [cstW, List.mem_singleton] at hp
    subst hp
    rfl
  have main := claim_C7_export_import_roundtrip rstW (1/5) xstW 5 sstW cstW gstW
    h1 h2 h3 h4 h5
  exact ⟨⟨h1, h2, h3, h4, h5⟩, main.2.2.2.2.2.1, main.2.2.2.2.2.2.2.1,
    main.2.2.2.2.2.2.2.2.2.2.2.1⟩

end Cortex

namespace Cortex

/-! ### Claim C8: the skill milestone check -/

/-- Along any extraction history, `tryExtractSkill` keeps the library's
skill count equal to the `skillsExtracted` metric. -/
theorem extractStep_counters_eq (bs : List Bool) (s : SkillCounters)
    (h : s.skillCount = s.skillsExtracted) :
    (bs.foldl extractStep s).skillCount = (bs.foldl extractStep s).skillsExtracted := by
  induction bs generalizing s with
  | nil => exact h
  | cons b bs ih =>
    rw [List.foldl_cons]
    refine ih _ ?_
    cases b <;> simp [extractStep, h]

/-- Counterexample to C8 as stated: starting from a fresh agent, one
successful `tryExtractSkill` raises the skill count by exactly 1 since the
previous milestone check, yet `checkMilestones` emits no skill milestone
(the condition `skillCount !== metrics.skillsExtracted` is false because
both counters were incremented together). -/
theorem claim_C8_counterexample :
    (extractStep initialSkillCounters true).skillCount =
        initialSkillCounters.skillCount + 1 ∧
    MilestoneTag.skill ∉ checkMilestones
      { expSize := 1, qSize := 1, skillCount := (extractStep initialSkillCounters true).skillCount,
        insightCount := 0, iteration := 1,
        skillsExtracted := (extractStep initialSkillCounters true).skillsExtracted } := by
  constructor
  · rfl
  · decide

/-- C8 (amended).  `checkMilestones` emits the skill milestone only when
the library's skill count differs from the `skillsExtracted` metric.
Because `tryExtractSkill` increments both counters together, after any
sequence of loop iterations of a fresh agent — in particular one in which
the count just rose by exactly 1 — the skill milestone is never emitted. -/
theorem claim_C8_amended_skill_milestone_never_fires (bs : List Bool)
    (expSize qSize insightCount iteration : ℕ) :
    MilestoneTag.skill ∉ checkMilestones
      { expSize := expSize, qSize := qSize,
        skillCount := (bs.foldl extractStep initialSkillCounters).skillCount,
        insightCount := insightCount, iteration := iteration,
        skillsExtracted := (bs.foldl extractStep initialSkillCounters).skillsExtracted } := by
  have heq := extractStep_counters_eq bs initialSkillCounters rfl
  unfold checkMilestones
  dsimp only
  intro hmem
  rcases List.mem_append.mp hmem with hmem2 | h
  · rcases List.mem_append.mp hmem2 with h | h
    · by_cases h1 : expSize = 100
      · rw [if_pos h1] at h
        simp at h
      · rw [if_neg h1] at h
        simp at h
    · by_cases h2 : qSize > 0 ∧ qSize % 50 = 0 ∧ iteration > 10
      · rw [if_pos h2] at h
        simp at h
      · rw [if_neg h2] at h
        simp at h
  · by_cases h3 : (bs.foldl extractStep initialSkillCounters).skillCount > 0 ∧
        (bs.foldl extractStep initialSkillCounters).skillCount ≠
          (bs.foldl extractStep initialSkillCounters).skillsExtracted
    · exact h3.2 heq
    · rw [if_neg h3] at h
      simp at h

end Cortex

namespace Cortex

/-! ### Claim C9: contrastive pair enumeration -/

theorem innerScan_spec (minSim : ℚ) (maxPairs : ℕ) (w : TrajRec) (ls : List TrajRec)
    (acc : List (TrajRec × TrajRec)) (h : acc.length < maxPairs) :
    innerScan minSim maxPairs w ls acc =
      (if maxPairs ≤
          (acc ++ (ls.filter (fun l => computeGoalSimilarity w.goal l.goal ≥ minSim)).map
            (fun l => (w, l))).length
       then ((acc ++ (ls.filter (fun l => computeGoalSimilarity w.goal l.goal ≥ minSim)).map
            (fun l => (w, l))).take maxPairs, true)
       else (acc ++ (ls.filter (fun l => computeGoalSimilarity w.goal l.goal ≥ minSim)).map
            (fun l => (w, l)), false)) := by
  induction ls generalizing acc with
  | nil =>
    rw [innerScan]
    rw [if_neg (by simpa using Nat.not_le.mpr h)]
    simp
  | cons l ls ih =>
    rw [innerScan]
    by_cases hsim : computeGoalSimilarity w.goal l.goal ≥ minSim
    · rw [if_pos hsim]
      simp only [List.filter_cons, hsim, decide_True, if_true, List.map_cons]
      by_cases hlen : (acc ++ [(w, l)]).length ≥ maxPairs
      · rw [if_pos hlen]
        have hexact : (acc ++ [(w, l)]).length = maxPairs := by
          simp only [List.length_append, List.length_singleton] at hlen ⊢
          omega
        have hassoc : acc ++ (w, l) ::
            (ls.filter (fun l => computeGoalSimilarity w.goal l.goal ≥ minSim)).map
              (fun l => (w, l)) =
            (acc ++ [(w, l)]) ++
              (ls.filter (fun l => computeGoalSimilarity w.goal l.goal ≥ minSim)).map
                (fun l => (w, l)) := by
          simp
        rw [hassoc, if_pos ?_, List.take_left' hexact]
        have hx := hexact
        simp only [List.length_append, List.length_singleton] at hx ⊢
        omega
      · rw [if_neg hlen]
        have hlt : (acc ++ [(w, l)]).length < maxPairs := Nat.not_le.mp (by simpa using hlen)
        rw [ih _ hlt]
        simp [List.append_assoc]
    · rw [if_neg hsim]
      simp only [List.filter_cons, hsim, decide_False, Bool.false_eq_true, if_false]
      exact ih acc h

theorem scanPairs_spec (minSim : ℚ) (maxPairs : ℕ) (losers : List TrajRec)
    (ws : List TrajRec) (acc : List (TrajRec × TrajRec)) (h : acc.length < maxPairs) :
    scanPairs minSim maxPairs losers ws acc =
      (if maxPairs ≤
          (acc ++ ws.flatMap (fun w =>
            (losers.filter (fun l => computeGoalSimilarity w.goal l.goal ≥ minSim)).map
              (fun l => (w, l)))).length
       then (acc ++ ws.flatMap (fun w =>
            (losers.filter (fun l => computeGoalSimilarity w.goal l.goal ≥ minSim)).map
              (fun l => (w, l)))).take maxPairs
       else acc ++ ws.flatMap (fun w =>
            (losers.filter (fun l => computeGoalSimilarity w.goal l.goal ≥ minSim)).map
              (fun l => (w, l)))) := by
  induction ws generalizing acc with
  | nil =>
    rw [scanPairs]
    rw [if_neg (by simpa using Nat.not_le.mpr h)]
    simp
  | cons w ws ih =>
    rw [scanPairs, innerScan_spec minSim maxPairs w losers acc h]
    by_cases hc : maxPairs ≤
        (acc ++ (losers.filter (fun l => computeGoalSimilarity w.goal l.goal ≥ minSim)).map
          (fun l => (w, l))).length
    · rw [if_pos hc]
      dsimp only
      simp only [List.flatMap_cons]
      have hassoc : acc ++
          ((losers.filter (fun l => computeGoalSimilarity w.goal l.goal ≥ minSim)).map
            (fun l => (w, l)) ++
           ws.flatMap (fun w =>
            (losers.filter (fun l => computeGoalSimilarity w.goal l.goal ≥ minSim)).map
              (fun l => (w, l)))) =
          (acc ++ (losers.filter (fun l => computeGoalSimilarity w.goal l.goal ≥ minSim)).map
            (fun l => (w, l))) ++
           ws.flatMap (fun w =>
            (losers.filter (fun l => computeGoalSimilarity w.goal l.goal ≥ minSim)).map
              (fun l => (w, l))) := by
        simp [List.append_assoc]
      rw [hassoc, if_pos (by simp only [List.length_append] at hc ⊢; omega)]
      rw [List.take_append_of_le_length hc]
    · rw [if_neg hc]
      dsimp only
      have hlt := Nat.not_le.mp hc
      rw [ih _ hlt]
      simp [List.append_assoc]

/-- Counterexample to C9 as stated at `maxComparisons = 0`: with one
successful and one failed trajectory on the same goal text, the cap check
runs only after a pair is pushed, so `findContrastingPairs(0)` returns one
pair instead of none. -/
theorem claim_C9_counterexample :
    (findContrastingPairs (1/2) 0
      [trajW "w" "research the token" true,
       trajW "l" "research the token" false]).length = 1 := by
  have hsim : computeGoalSimilarity "research the token" "research the token" = 1 := by
    have hov : ((tokenSet "research the token").filter
        (fun w => (tokenSet "research the token").contains w)).length = 3 := by decide
    have hun : (dedupFirst (tokenSet "research the token" ++
        tokenSet "research the token")).length = 3 := by decide
    unfold computeGoalSimilarity
    dsimp only
    rw [hov, hun, if_pos (by norm_num)]
    norm_num
  have hge : computeGoalSimilarity (trajW "w" "research the token" true).goal
      (trajW "l" "research the token" false).goal ≥ (1/2 : ℚ) := by
    show computeGoalSimilarity "research the token" "research the token" ≥ (1/2 : ℚ)
    rw [hsim]
    norm_num
  have hinner : innerScan (1/2) 0 (trajW "w" "research the token" true)
      [trajW "l" "research the token" false] [] =
      ([(trajW "w" "research the token" true, trajW "l" "research the token" false)],
       true) := by
    rw [innerScan, if_pos hge]
    rw [if_pos (Nat.zero_le _)]
    rfl
  have hwinners : ([trajW "w" "research the token" true,
      trajW "l" "research the token" false].filter (fun t => t.success)) =
      [trajW "w" "research the token" true] := rfl
  have hlosers : ([trajW "w" "research the token" true,
      trajW "l" "research the token" false].filter (fun t => !t.success)) =
      [trajW "l" "research the token" false] := rfl
  unfold findContrastingPairs
  dsimp only
  rw [hwinners, hlosers, scanPairs, hinner]
  rfl

/-- C9 (amended).  For `maxComparisons ≥ 1`, `findContrastingPairs`
returns exactly the first `maxComparisons` entries of the nested
winners × losers scan filtered by goal similarity ≥ the configured
minimum — the enumeration order, the similarity filter and the early stop
are all as the claim describes.  (At `maxComparisons = 0` the code instead
returns the first qualifying pair, because the cap is only checked after a
push — see the counterexample.) -/
theorem claim_C9_amended_pairs_are_filtered_prefix (minSim : ℚ) (maxPairs : ℕ)
    (ts : List TrajRec) (h : 1 ≤ maxPairs) :
    findContrastingPairs minSim maxPairs ts =
      (qualifyingPairs minSim ts).take maxPairs := by
  unfold findContrastingPairs qualifyingPairs
  dsimp only
  rw [scanPairs_spec minSim maxPairs _ _ []
    (by simp only [List.length_nil]; omega)]
  simp only [List.nil_append]
  by_cases hc : maxPairs ≤
      ((ts.filter (fun t => t.success)).flatMap (fun w =>
        ((ts.filter (fun t => !t.success)).filter
          (fun l => computeGoalSimilarity w.goal l.goal ≥ minSim)).map
            (fun l => (w, l)))).length
  · rw [if_pos hc]
  · rw [if_neg hc, List.take_of_length_le (by omega)]

/-- Concrete instance of the amended C9 theorem: with `maxComparisons = 1`
and two same-goal trajectories the scan yields exactly the one
qualifying pair. -/
theorem claim_C9_witness :
    1 ≤ 1 ∧
    findContrastingPairs (1/2) 1
      [trajW "w" "research the token" true, trajW "l" "research the token" false] =
      (qualifyingPairs (1/2)
        [trajW "w" "research the token" true,
         trajW "l" "research the token" false]).take 1 :=
  ⟨le_refl 1,
   claim_C9_amended_pairs_are_filtered_prefix (1/2) 1
     [trajW "w" "research the token" true, trajW "l" "research the token" false]
     (le_refl 1)⟩

end Cortex

namespace Cortex

/-! ### Claim C10: `applyGradient` aliases the input's steps array -/

theorem readCell_writeCell_self (store : Store) (i : ℕ) (v : List String)
    (h : i < store.length) :
    readCell (writeCell store i v) i = v := by
  rw [readCell, writeCell, List.get?_set_eq_of_lt _ h]
  rfl

theorem readCell_writeCell_ne (store : Store) (i j : ℕ) (v : List String)
    (h : i ≠ j) :
    readCell (writeCell store j v) i = readCell store i := by
  rw [readCell, writeCell, List.get?_set_ne _ _ (Ne.symm h)]
  rfl

theorem applyAddHeuristics_fst_readCell (eff : ℚ) (href : ℕ) (hs : List String)
    (store : Store) (draws : List ℚ) (i : ℕ) (hi : i ≠ href) :
    readCell (applyAddHeuristics eff href hs store draws).1 i = readCell store i := by
  induction hs generalizing store draws with
  | nil => rfl
  | cons h hs ih =>
    rw [applyAddHeuristics]
    dsimp only
    by_cases hc : (nextDraw draws).1 < eff ∧
        ¬ (readCell store href).contains h = true
    · rw [if_pos hc, ih, readCell_writeCell_ne _ _ _ _ hi]
    · rw [if_neg hc, ih]

theorem applyAddHeuristics_fst_length (eff : ℚ) (href : ℕ) (hs : List String)
    (store : Store) (draws : List ℚ) :
    (applyAddHeuristics eff href hs store draws).1.length = store.length := by
  induction hs generalizing store draws with
  | nil => rfl
  | cons h hs ih =>
    rw [applyAddHeuristics]
    dsimp only
    by_cases hc : (nextDraw draws).1 < eff ∧
        ¬ (readCell store href).contains h = true
    · rw [if_pos hc, ih, writeCell, List.length_set]
    · rw [if_neg hc, ih]

theorem applyAddHeuristics_snd (eff : ℚ) (href : ℕ) (hs : List String)
    (store : Store) (draws : List ℚ) :
    (applyAddHeuristics eff href hs store draws).2 = draws.drop hs.length := by
  induction hs generalizing store draws with
  | nil => rfl
  | cons h hs ih =>
    rw [applyAddHeuristics]
    dsimp only
    cases draws with
    | nil =>
      by_cases hc : (nextDraw ([] : List ℚ)).1 < eff ∧
          ¬ (readCell store href).contains h = true
      · rw [if_pos hc, ih]
        simp [nextDraw]
      · rw [if_neg hc, ih]
        simp [nextDraw]
    | cons d ds =>
      by_cases hc : (nextDraw (d :: ds)).1 < eff ∧
          ¬ (readCell store href).contains h = true
      · rw [if_pos hc, ih]
        rfl
      · rw [if_neg hc, ih]
        rfl

theorem applyRemoveHeuristics_readCell (eff : ℚ) (hs : List String) (href : ℕ)
    (store : Store) (draws : List ℚ) (i : ℕ) (hi : i < store.length) :
    readCell (applyRemoveHeuristics eff hs href store draws).2.1 i =
      readCell store i := by
  induction hs generalizing href store draws with
  | nil => rfl
  | cons h hs ih =>
    rw [applyRemoveHeuristics]
    dsimp only
    by_cases hc : (nextDraw draws).1 < eff
    · rw [if_pos hc, ih _ _ _ (by simp; omega)]
      rw [readCell, List.get?_append hi]
      rfl
    · rw [if_neg hc, ih _ _ _ hi]

theorem applyRemoveHeuristics_length_le (eff : ℚ) (hs : List String) (href : ℕ)
    (store : Store) (draws : List ℚ) :
    store.length ≤ (applyRemoveHeuristics eff hs href store draws).2.1.length := by
  induction hs generalizing href store draws with
  | nil => exact le_refl _
  | cons h hs ih =>
    rw [applyRemoveHeuristics]
    dsimp only
    by_cases hc : (nextDraw draws).1 < eff
    · rw [if_pos hc]
      refine le_trans ?_ (ih _ _ _)
      simp
    · rw [if_neg hc]
      exact ih _ _ _

theorem applyRemoveHeuristics_draws (eff : ℚ) (hs : List String) (href : ℕ)
    (store : Store) (draws : List ℚ) :
    (applyRemoveHeuristics eff hs href store draws).2.2 = draws.drop hs.length := by
  induction hs generalizing href store draws with
  | nil => rfl
  | cons h hs ih =>
    rw [applyRemoveHeuristics]
    dsimp only
    cases draws with
    | nil =>
      by_cases hc : (nextDraw ([] : List ℚ)).1 < eff
      · rw [if_pos hc, ih]
        simp [nextDraw]
      · rw [if_neg hc, ih]
        simp [nextDraw]
    | cons d ds =>
      by_cases hc : (nextDraw (d :: ds)).1 < eff
      · rw [if_pos hc, ih]
        rfl
      · rw [if_neg hc, ih]
        rfl

theorem applyModifySteps_readCell_self (eff : ℚ) (sref : ℕ) (ms : List StepMod)
    (store : Store) (draws : List ℚ) (h : sref < store.length) :
    readCell (applyModifySteps eff sref ms store draws).1 sref =
      stepModsSpec eff ms (readCell store sref) draws := by
  induction ms generalizing store draws with
  | nil => rfl
  | cons m ms ih =>
    rw [applyModifySteps, stepModsSpec]
    dsimp only
    by_cases hc : (nextDraw draws).1 < eff
    · rw [if_pos hc, if_pos hc,
        ih _ _ (by rw [writeCell, List.length_set]; exact h),
        readCell_writeCell_self _ _ _ h]
    · rw [if_neg hc, if_neg hc, ih _ _ h]

/-- C10 (confirmed).  `applyGradient` returns a shallow copy sharing the
input's `steps` array: the returned strategy's `steps` reference equals
the input's, and after the call the cell that the *input* strategy's
`steps` field references holds the step-modification phase's result — so
whenever some step modification fires and changes the list (in particular
when its trial fires and its `original` occurs in the steps), the input
strategy object observes the mutation rather than remaining unchanged. -/
theorem claim_C10_applyGradient_mutates_input_steps (learningRate : ℚ)
    (store : Store) (strategy : StrategyObj) (g : TextualGradient) (draws : List ℚ)
    (hdist : strategy.heuristicsRef ≠ strategy.stepsRef)
    (hlen : strategy.stepsRef < store.length) :
    (applyGradient learningRate store strategy g draws).1.stepsRef =
      strategy.stepsRef ∧
    readCell (applyGradient learningRate store strategy g draws).2.1
        strategy.stepsRef =
      stepModsSpec (learningRate * g.magnitude) g.modifications.modifySteps
        (readCell store strategy.stepsRef)
        (draws.drop (g.modifications.addHeuristics.length +
          g.modifications.removeHeuristics.length)) ∧
    (stepModsSpec (learningRate * g.magnitude) g.modifications.modifySteps
        (readCell store strategy.stepsRef)
        (draws.drop (g.modifications.addHeuristics.length +
          g.modifications.removeHeuristics.length)) ≠
        readCell store strategy.stepsRef →
      readCell (applyGradient learningRate store strategy g draws).2.1
          strategy.stepsRef ≠ readCell store strategy.stepsRef) := by
  have hstep : (applyGradient learningRate store strategy g draws).1.stepsRef =
      strategy.stepsRef := by
    unfold applyGradient
    dsimp only
    by_cases hp : g.modifications.promptAdjustments.length > 0
    · rw [if_pos hp]
      split
      · rfl
      · rfl
    · rw [if_neg hp]
  have hstore : (applyGradient learningRate store strategy g draws).2.1 =
      (applyModifySteps (learningRate * g.magnitude) strategy.stepsRef
        g.modifications.modifySteps
        (applyRemoveHeuristics (learningRate * g.magnitude)
          g.modifications.removeHeuristics strategy.heuristicsRef
          (applyAddHeuristics (learningRate * g.magnitude) strategy.heuristicsRef
            g.modifications.addHeuristics store draws).1
          (applyAddHeuristics (learningRate * g.magnitude) strategy.heuristicsRef
            g.modifications.addHeuristics store draws).2).2.1
        (applyRemoveHeuristics (learningRate * g.magnitude)
          g.modifications.removeHeuristics strategy.heuristicsRef
          (applyAddHeuristics (learningRate * g.magnitude) strategy.heuristicsRef
            g.modifications.addHeuristics store draws).1
          (applyAddHeuristics (learningRate * g.magnitude) strategy.heuristicsRef
            g.modifications.addHeuristics store draws).2).2.2).1 := by
    unfold applyGradient
    dsimp only
  have hlen1 : strategy.stepsRef <
      (applyAddHeuristics (learningRate * g.magnitude) strategy.heuristicsRef
        g.modifications.addHeuristics store draws).1.length := by
    rw [applyAddHeuristics_fst_length]
    exact hlen
  have hlen2 : strategy.stepsRef <
      (applyRemoveHeuristics (learningRate * g.magnitude)
        g.modifications.removeHeuristics strategy.heuristicsRef
        (applyAddHeuristics (learningRate * g.magnitude) strategy.heuristicsRef
          g.modifications.addHeuristics store draws).1
        (applyAddHeuristics (learningRate * g.magnitude) strategy.heuristicsRef
          g.modifications.addHeuristics store draws).2).2.1.length :=
    lt_of_lt_of_le hlen1 (applyRemoveHeuristics_length_le _ _ _ _ _)
  have hread : readCell (applyGradient learningRate store strategy g draws).2.1
      strategy.stepsRef =
      stepModsSpec (learningRate * g.magnitude) g.modifications.modifySteps
        (readCell store strategy.stepsRef)
        (draws.drop (g.modifications.addHeuristics.length +
          g.modifications.removeHeuristics.length)) := by
    rw [hstore, applyModifySteps_readCell_self _ _ _ _ _ hlen2,
      applyRemoveHeuristics_readCell _ _ _ _ _ _ hlen1,
      applyAddHeuristics_fst_readCell _ _ _ _ _ _ (Ne.symm hdist),
      applyRemoveHeuristics_draws, applyAddHeuristics_snd, List.drop_drop]
  refine ⟨hstep, hread, ?_⟩
  intro hne
  rw [hread]
  exact hne

/-- Concrete instance of the C10 theorem: learning rate 1, magnitude 1, a
single firing step modification replacing `"old"` by `"new"`; the input
strategy's steps cell is rewritten. -/
theorem claim_C10_witness :
    stratC10.heuristicsRef ≠ stratC10.stepsRef ∧
    stratC10.stepsRef < storeC10.length ∧
    (applyGradient 1 storeC10 stratC10 gradC10 [0]).1.stepsRef = stratC10.stepsRef ∧
    readCell (applyGradient 1 storeC10 stratC10 gradC10 [0]).2.1 stratC10.stepsRef =
      stepModsSpec (1 * gradC10.magnitude) gradC10.modifications.modifySteps
        (readCell storeC10 stratC10.stepsRef)
        ([0].drop (gradC10.modifications.addHeuristics.length +
          gradC10.modifications.removeHeuristics.length)) := by
  have h1 : stratC10.heuristicsRef ≠ stratC10.stepsRef := by decide
  have h2 : stratC10.stepsRef < storeC10.length := by decide
  have main := claim_C10_applyGradient_mutates_input_steps 1 storeC10 stratC10
    gradC10 [0] h1 h2
  exact ⟨h1, h2, main.1, main.2.1⟩

end Cortex
